import Mathlib

/-!
Verification of the odds-backend-gpt service core against its specification.

The development shallowly embeds the JavaScript source:
* a `JVal` type models JavaScript/JSON values together with their truthiness,
  `||`, `??` and property access semantics;
* the gateway client `fetchOdds` (cache key construction, cache hit/miss,
  upstream error propagation, cache population) from `oddsApi.js`;
* the event normalizer `normalizeEvents` from `normalize.js`;
* the sport alias resolver `resolveSportKey`, the market preset table
  `PRESETS` with its resolution logic, and the parlay pricing pipeline
  (`americanToDecimal`, `decimalToAmerican`, the `/api/gpt/parlay/price`
  handler core) from the express server builds.

Numeric code is modelled over `ℚ`; `Math.round` is Lean `round`
(floor of x + 1/2, matching JavaScript tie-breaking toward +∞) and
`toFixed(k)` is rounding at `10^k`.
-/


/-! Section: Structural string primitives

JavaScript string methods used by the source (`trim`, `toLowerCase`,
`includes`, `startsWith`, `split`) as structurally recursive functions on
the character list, so that every concrete evaluation reduces. -/

/-- `s.toLowerCase()`. -/
def jsToLower (s : String) : String := ⟨s.data.map Char.toLower⟩

/-- `s.trim()`. -/
def jsTrim (s : String) : String :=
  ⟨((s.data.dropWhile Char.isWhitespace).reverse.dropWhile Char.isWhitespace).reverse⟩

/-- `s.includes(c)` for a single-character needle. -/
def jsContainsChar (s : String) (c : Char) : Bool := s.data.any (fun d => d == c)

/-- Whether the first list is an initial segment of the second. -/
def startsWithList : List Char → List Char → Bool
  | [], _ => true
  | _ :: _, [] => false
  | p :: ps, c :: cs => p == c && startsWithList ps cs

/-- `s.startsWith(pat)`. -/
def jsStartsWith (s pat : String) : Bool := startsWithList pat.data s.data

/-- Split a character list on a separator (`split` keeps empty pieces). -/
def splitListOn (sep : Char) : List Char → List (List Char)
  | [] => [[]]
  | c :: cs =>
    if c == sep then [] :: splitListOn sep cs
    else
      match splitListOn sep cs with
      | [] => [[c]]
      | g :: gs => (c :: g) :: gs

/-- `s.split(',')`. -/
def jsSplitComma (s : String) : List String :=
  (splitListOn ',' s.data).map (fun cs => String.mk cs)

/-! Section: JavaScript value model -/

/-- A JavaScript/JSON value as the source manipulates it: `undefined`,
`null`, booleans, numbers (modelled as rationals), strings, arrays and
objects (ordered field lists). -/
inductive JVal where
  | undefined : JVal
  | null : JVal
  | bool (b : Bool) : JVal
  | num (q : ℚ) : JVal
  | str (s : String) : JVal
  | arr (elems : List JVal) : JVal
  | obj (fields : List (String × JVal)) : JVal
deriving Repr

/-- JavaScript truthiness: `undefined`, `null`, `false`, `0` and `""` are
falsy; every other value (including empty arrays and objects) is truthy. -/
def truthy : JVal → Bool
  | .undefined => false
  | .null => false
  | .bool b => b
  | .num q => q != 0
  | .str s => s != ""
  | .arr _ => true
  | .obj _ => true

/-- JavaScript `a || b`: `a` when truthy, otherwise `b`. -/
def jsOr (a b : JVal) : JVal := if truthy a then a else b

/-- JavaScript `a ?? b`: `b` exactly when `a` is `undefined` or `null`. -/
def jsNullish (a b : JVal) : JVal :=
  match a with
  | .undefined => b
  | .null => b
  | v => v

/-- Property read `v.f`: throws a TypeError on `undefined`/`null`, yields
`undefined` on primitives and on objects lacking the field. -/
def getField : JVal → String → Except String JVal
  | .undefined, _ => .error "TypeError: read of undefined"
  | .null, _ => .error "TypeError: read of null"
  | .obj fs, f => .ok (((fs.find? (fun p => p.1 == f)).map (fun p => p.2)).getD .undefined)
  | _, _ => .ok .undefined

/-- Total variant of property read used on the specification side
(`undefined` wherever `getField` would throw). -/
def fieldD (v : JVal) (f : String) : JVal :=
  match v with
  | .obj fs => ((fs.find? (fun p => p.1 == f)).map (fun p => p.2)).getD .undefined
  | _ => .undefined

/-- Effect of `xs.map(f)` for a callback that may throw: the first throw
aborts the whole map, mirroring JavaScript exception propagation. -/
def mapE (f : JVal → Except String JVal) : List JVal → Except String (List JVal)
  | [] => .ok []
  | x :: xs =>
    match f x with
    | .error e => .error e
    | .ok y =>
      match mapE f xs with
      | .error e => .error e
      | .ok ys => .ok (y :: ys)

/-- JavaScript `v.map(f)`: a TypeError unless `v` is an array. -/
def jsMapArr (f : JVal → Except String JVal) : JVal → Except String JVal
  | .arr xs =>
    match mapE f xs with
    | .error e => .error e
    | .ok ys => .ok (.arr ys)
  | _ => .error "TypeError: map on non-array"

/-- The elements of an array value, `[]` for anything else. -/
def elemsOf : JVal → List JVal
  | .arr xs => xs
  | _ => []

/-! Section: Query-string serialization and the request cache

`oddsApi.js`: `qs(params) = new URLSearchParams(params).toString()`.
`URLSearchParams` serializes the pairs in insertion order using
`application/x-www-form-urlencoded`: bytes in `A-Z a-z 0-9 * - . _` pass
through, a space becomes `+`, every other UTF-8 byte becomes `%XX`. -/

/-- Uppercase hexadecimal digit for `n < 16`. -/
def hexDigit (n : ℕ) : Char :=
  if n < 10 then Char.ofNat (48 + n) else Char.ofNat (55 + n)

/-- UTF-8 byte sequence of a code point. -/
def utf8Bytes (n : ℕ) : List ℕ :=
  if n < 128 then [n]
  else if n < 2048 then [192 + n / 64, 128 + n % 64]
  else if n < 65536 then [224 + n / 4096, 128 + (n / 64) % 64, 128 + n % 64]
  else [240 + n / 262144, 128 + (n / 4096) % 64, 128 + (n / 64) % 64, 128 + n % 64]

/-- `%XX` escape of one byte. -/
def percentByte (b : ℕ) : String :=
  "%" ++ String.singleton (hexDigit (b / 16)) ++ String.singleton (hexDigit (b % 16))

/-- `application/x-www-form-urlencoded` encoding of one character. -/
def formEncodeChar (c : Char) : String :=
  if c.isAlphanum || c == '*' || c == '-' || c == '.' || c == '_' then String.singleton c
  else if c == ' ' then "+"
  else String.join ((utf8Bytes c.toNat).map percentByte)

/-- `application/x-www-form-urlencoded` encoding of a string. -/
def formEncode (s : String) : String := String.join (s.data.map formEncodeChar)

/-- `qs(params)`: the `URLSearchParams` serialization, in insertion order. -/
def qsOf (params : List (String × String)) : String :=
  String.intercalate "&" (params.map (fun p => formEncode p.1 ++ "=" ++ formEncode p.2))

/-- The cache key computed by `fetchOdds`: ``${endpoint}?${qs(params)}``. -/
def cacheKeyOf (endpoint : String) (params : List (String × String)) : String :=
  endpoint ++ "?" ++ qsOf params

/-- The node-cache store, as a key-value association list. -/
abbrev Cache := List (String × JVal)

/-- `cache.get(key)`. -/
def cacheGet (c : Cache) (k : String) : Option JVal :=
  ((c.find? (fun p => p.1 == k)).map (fun p => p.2))

/-- `cache.set(key, value)`: overwrites any existing entry for the key. -/
def cacheSet (c : Cache) (k : String) (v : JVal) : Cache :=
  (k, v) :: c.filter (fun p => p.1 != k)

/-- JavaScript spread `{...params, apiKey: key}`: an existing `apiKey`
property is overwritten in place, otherwise the pair is appended. -/
def spreadApiKey (params : List (String × String)) (key : String) : List (String × String) :=
  if params.any (fun p => p.1 == "apiKey") then
    params.map (fun p => if p.1 == "apiKey" then (p.1, key) else p)
  else params ++ [("apiKey", key)]

/-- One upstream HTTP exchange: the status code, the raw response text
(`body.text()`) and the parsed JSON payload (`body.json()`). -/
structure Upstream where
  statusCode : ℕ
  bodyText : String
  bodyJson : JVal

/-- Outcome of one `fetchOdds` call: the request URL actually issued
(`none` when the call was served from the cache and no HTTP request was
made), the returned value or thrown upstream error `(status, body text)`,
and the cache after the call. -/
structure FetchOut where
  req : Option String
  result : Except (ℕ × String) JVal
  cache : Cache

/-- Upstream URL of the header-credential build: the credential travels in
an `Authorization` header, never in the query string. -/
def requestUrlHdr (base endpoint : String) (params : List (String × String)) : String :=
  base ++ endpoint ++ "?" ++ qsOf params

/-- Upstream URL of the query-credential build:
``${BASE}${endpoint}?${qs({ ...params, apiKey: KEY })}``. -/
def requestUrlQry (base apiKey endpoint : String) (params : List (String × String)) : String :=
  base ++ endpoint ++ "?" ++ qsOf (spreadApiKey params apiKey)

/-- `fetchOdds(endpoint, params)` of the header-credential build
(`src/services/oddsApi.js`): compute the cache key, return a truthy cached
value without touching the network, otherwise issue the request once,
throw `Odds API error status: text` on a status of 400 or above leaving
the cache unchanged, and on success store the parsed payload under the key
and return it. The `apiKey` argument only feeds the request header, which
the model does not inspect. -/
def fetchOddsH (base apiKey endpoint : String) (params : List (String × String))
    (c : Cache) (up : Upstream) : FetchOut :=
  let key := endpoint ++ "?" ++ qsOf params
  let cached := cacheGet c key
  match cached with
  | some v =>
    if truthy v then ⟨none, .ok v, c⟩
    else
      let url := requestUrlHdr base endpoint params
      if 400 ≤ up.statusCode then ⟨some url, .error (up.statusCode, up.bodyText), c⟩
      else ⟨some url, .ok up.bodyJson, cacheSet c key up.bodyJson⟩
  | none =>
    let url := requestUrlHdr base endpoint params
    if 400 ≤ up.statusCode then ⟨some url, .error (up.statusCode, up.bodyText), c⟩
    else ⟨some url, .ok up.bodyJson, cacheSet c key up.bodyJson⟩

/-- `fetchOdds(endpoint, params)` of the query-credential build: identical
cache logic, but the request URL carries `apiKey` as a query parameter.
The cache key is computed from `params` alone, before the credential is
spread into the URL. -/
def fetchOddsQ (base apiKey endpoint : String) (params : List (String × String))
    (c : Cache) (up : Upstream) : FetchOut :=
  let key := endpoint ++ "?" ++ qsOf params
  let cached := cacheGet c key
  match cached with
  | some v =>
    if truthy v then ⟨none, .ok v, c⟩
    else
      let url := requestUrlQry base apiKey endpoint params
      if 400 ≤ up.statusCode then ⟨some url, .error (up.statusCode, up.bodyText), c⟩
      else ⟨some url, .ok up.bodyJson, cacheSet c key up.bodyJson⟩
  | none =>
    let url := requestUrlQry base apiKey endpoint params
    if 400 ≤ up.statusCode then ⟨some url, .error (up.statusCode, up.bodyText), c⟩
    else ⟨some url, .ok up.bodyJson, cacheSet c key up.bodyJson⟩

/-! Section: Event/market normalizer (`normalize.js`) -/

/-- `o => ({ name: o.name, price: o.price, point: o.point ?? null })`. -/
def normalizeOutcome (o : JVal) : Except String JVal := do
  let name ← getField o "name"
  let price ← getField o "price"
  let point ← getField o "point"
  pure (.obj [("name", name), ("price", price), ("point", jsNullish point .null)])

/-- `m => ({ key: m.key, outcomes: (m.outcomes || []).map(...) })`. -/
def normalizeMarket (m : JVal) : Except String JVal := do
  let key ← getField m "key"
  let outs ← getField m "outcomes"
  let outcomes ← jsMapArr normalizeOutcome (jsOr outs (.arr []))
  pure (.obj [("key", key), ("outcomes", outcomes)])

/-- `b => ({ key: b.key, title: b.title, markets: (b.markets || []).map(...) })`. -/
def normalizeBookmaker (b : JVal) : Except String JVal := do
  let key ← getField b "key"
  let title ← getField b "title"
  let ms ← getField b "markets"
  let markets ← jsMapArr normalizeMarket (jsOr ms (.arr []))
  pure (.obj [("key", key), ("title", title), ("markets", markets)])

/-- The per-event mapping body of `normalizeEvents`. -/
def normalizeEvent (e : JVal) : Except String JVal := do
  let i ← getField e "id"
  let gid ← getField e "game_id"
  let eid ← getField e "event_id"
  let sk ← getField e "sport_key"
  let skc ← getField e "sportKey"
  let ct ← getField e "commence_time"
  let home ← getField e "home_team"
  let away ← getField e "away_team"
  let bms ← getField e "bookmakers"
  let bookmakers ← jsMapArr normalizeBookmaker (jsOr bms (.arr []))
  pure (.obj [("id", jsOr (jsOr i gid) eid), ("sport_key", jsOr sk skc),
    ("commence_time", ct), ("home", home), ("away", away),
    ("bookmakers", bookmakers)])

/-- `normalizeEvents(rawEvents) = rawEvents.map(e => ...)`. -/
def normalizeEvents (rawEvents : JVal) : Except String JVal :=
  jsMapArr normalizeEvent rawEvents

/-! Specification-side total normalizers: identical field selection, but
with throwing property reads replaced by `fieldD` and the collection maps
running over `elemsOf`. On well-formed input they agree with the code. -/

/-- Total counterpart of `normalizeOutcome`. -/
def normOutcomeP (o : JVal) : JVal :=
  .obj [("name", fieldD o "name"), ("price", fieldD o "price"),
    ("point", jsNullish (fieldD o "point") .null)]

/-- Total counterpart of `normalizeMarket`. -/
def normMarketP (m : JVal) : JVal :=
  .obj [("key", fieldD m "key"),
    ("outcomes", .arr ((elemsOf (fieldD m "outcomes")).map normOutcomeP))]

/-- Total counterpart of `normalizeBookmaker`. -/
def normBookP (b : JVal) : JVal :=
  .obj [("key", fieldD b "key"), ("title", fieldD b "title"),
    ("markets", .arr ((elemsOf (fieldD b "markets")).map normMarketP))]

/-- Total counterpart of `normalizeEvent`. -/
def normEventP (e : JVal) : JVal :=
  .obj [("id", jsOr (jsOr (fieldD e "id") (fieldD e "game_id")) (fieldD e "event_id")),
    ("sport_key", jsOr (fieldD e "sport_key") (fieldD e "sportKey")),
    ("commence_time", fieldD e "commence_time"),
    ("home", fieldD e "home_team"), ("away", fieldD e "away_team"),
    ("bookmakers", .arr ((elemsOf (fieldD e "bookmakers")).map normBookP))]

/-- A value property reads never throw on: anything but `undefined`/`null`. -/
def notNullish : JVal → Bool
  | .undefined => false
  | .null => false
  | _ => true

/-- A collection field the code can traverse: an array of acceptable
elements, or any falsy value (which `|| []` silently replaces). -/
def wfColl (v : JVal) (elemOK : JVal → Bool) : Bool :=
  match v with
  | .arr xs => xs.all elemOK
  | x => !truthy x

/-- Outcomes the normalizer is total on. -/
def WFOutcome (o : JVal) : Bool := notNullish o

/-- Markets the normalizer is total on. -/
def WFMarket (m : JVal) : Bool :=
  notNullish m && wfColl (fieldD m "outcomes") WFOutcome

/-- Bookmakers the normalizer is total on. -/
def WFBookmaker (b : JVal) : Bool :=
  notNullish b && wfColl (fieldD b "markets") WFMarket

/-- Events the normalizer is total on: in particular every merely-sparse
event (any object, with optional fields absent at will) is well-formed. -/
def WFEvent (e : JVal) : Bool :=
  notNullish e && wfColl (fieldD e "bookmakers") WFBookmaker

/-- The selection rule claimed by the specification: the first candidate
that is present and non-null (`undefined` when there is none). -/
def specFirstPresentNonNull (cands : List JVal) : JVal :=
  match cands.find? notNullish with
  | some v => v
  | none => .undefined

/-! Section: Sport alias resolver and market presets (express server builds) -/

/-- The fixed alias table `SPORT_ALIASES`. -/
def SPORT_ALIASES : List (String × String) :=
  [("mlb", "baseball_mlb"), ("nba", "basketball_nba"), ("ncaab", "basketball_ncaab"),
   ("nfl", "americanfootball_nfl"), ("ncaaf", "americanfootball_ncaaf"),
   ("nhl", "icehockey_nhl"), ("soccer", "soccer"), ("tennis", "tennis_atp"),
   ("atp", "tennis_atp"), ("wta", "tennis_wta")]

/-- `resolveSportKey`: trim and lowercase; empty input resolves to null; a
value containing `_` passes through; otherwise the alias table decides. -/
def resolveSportKey (value : String) : Option String :=
  let v := jsToLower (jsTrim value)
  if v = "" then none
  else if jsContainsChar v '_' then some v
  else SPORT_ALIASES.lookup v

/-- The fixed preset table `PRESETS`. -/
def PRESETS : List (String × String) :=
  [("moneyline", "h2h"), ("spreads", "spreads"), ("totals", "totals"),
   ("first_half", "h2h_h1,spreads_h1,totals_h1"),
   ("f5", "h2h_1st_5_innings,spreads_1st_5_innings,totals_1st_5_innings"),
   ("props_basic", "pitcher_strikeouts,batter_home_run,batter_hits_over_under,batter_total_bases_over_under")]

/-- Failures of preset resolution, mirroring the distinct handler error
responses: missing parameter, `Unknown preset "p"`, and the baseball-only
guard on `f5`. -/
inductive PresetErr where
  | missingPreset : PresetErr
  | unknownPreset (p : String) : PresetErr
  | domainMismatch : PresetErr
deriving Repr, DecidableEq

/-- The preset-resolution core of `GET /api/gpt/markets/preset`: trim and
lowercase the name, reject an empty name as missing, reject names outside
`PRESETS`, reject `f5` unless the sport key starts with `baseball_`, and
otherwise return the preset's market csv. -/
def resolvePreset (preset sportKey : String) : Except PresetErr String :=
  let p := jsToLower (jsTrim preset)
  if p = "" then .error .missingPreset
  else
    match PRESETS.lookup p with
    | none => .error (.unknownPreset p)
    | some markets =>
      if p = "f5" && !(jsStartsWith sportKey "baseball_") then .error .domainMismatch
      else .ok markets

/-! Section: Parlay pricing -/

/-- Failures of the parlay pricing pipeline, one constructor per distinct
thrown message: `bad american leg: a`, `bad decimal leg: d`,
`bad decimal: d` (combined-price conversion), `Unknown format "f"` and
`No legs provided`. -/
inductive PErr where
  | badAmericanLeg (a : ℚ) : PErr
  | badDecimalLeg (d : ℚ) : PErr
  | badDecimal (d : ℚ) : PErr
  | unknownFormat (f : String) : PErr
  | noLegs : PErr
deriving Repr, DecidableEq

/-- `americanToDecimal`: rejects 0, maps positive `n` to `1 + n/100` and
negative `n` to `1 + 100/|n|`. -/
def americanToDecimal (a : ℚ) : Except PErr ℚ :=
  if a = 0 then .error (.badAmericanLeg a)
  else .ok (if 0 < a then 1 + a / 100 else 1 + 100 / |a|)

/-- `decimalToAmerican`: rejects `d ≤ 1`, maps `d ≥ 2` to
`Math.round((d-1)*100)` and `1 < d < 2` to `Math.round(-100/(d-1))`. -/
def decimalToAmerican (d : ℚ) : Except PErr ℤ :=
  if d ≤ 1 then .error (.badDecimal d)
  else .ok (if 2 ≤ d then round ((d - 1) * 100) else round (-100 / (d - 1)))

/-- `clamp(v, min, max) = Math.max(min, Math.min(max, v))`. -/
def clamp (v mn mx : ℚ) : ℚ := max mn (min mx v)

/-- `x.toFixed(k)` as a rational: round at `10^k` fractional digits
(JavaScript resolves ties toward the larger value, as `round` does). -/
def toFixedQ (k : ℕ) (x : ℚ) : ℚ := (round (x * 10 ^ k) : ℚ) / 10 ^ k

/-- The priced parlay as reported by the handler: decimal price rounded to
6 fraction digits, combined American price, implied probability as a
percentage rounded to 4 fraction digits. -/
structure ParlayOut where
  decimal : ℚ
  american : ℤ
  implied_probability : ℚ
deriving Repr, DecidableEq

/-- The shared tail of both parlay handlers: multiply the per-leg decimal
odds (`reduce((acc, d) => acc * d, 1)`), convert the product to American,
clamp the implied probability into `[0, 1]` and round the reported
figures. -/
def mkParlay (decimalLegs : List ℚ) : Except PErr ParlayOut := do
  let product := decimalLegs.foldl (· * ·) 1
  let american ← decimalToAmerican product
  let implied := clamp (1 / product) 0 1
  pure ⟨toFixedQ 6 product, american, toFixedQ 4 (implied * 100)⟩

/-- The per-leg parse of `decimal` mode: a number strictly above 1. -/
def parseDecimalLeg (d : ℚ) : Except PErr ℚ :=
  if d ≤ 1 then .error (.badDecimalLeg d) else .ok d

/-- The `GET /api/gpt/parlay/price` core of the later build: the format
defaults to `american` when absent or empty and is lowercased; an empty
leg list is rejected; `american` legs go through `americanToDecimal`,
`decimal` legs must each exceed 1, and any other format is rejected as
unknown. Legs arrive already split and parsed as numbers. -/
def priceParlay (format : Option String) (legs : List ℚ) : Except PErr ParlayOut :=
  let f := jsToLower (match format with
    | none => "american"
    | some s => if s = "" then "american" else s)
  if legs.isEmpty then .error .noLegs
  else if f = "american" then
    match legs.mapM americanToDecimal with
    | .error e => .error e
    | .ok ds => mkParlay ds
  else if f = "decimal" then
    match legs.mapM parseDecimalLeg with
    | .error e => .error e
    | .ok ds => mkParlay ds
  else .error (.unknownFormat f)

/-- The `GET /api/gpt/parlay/price` core of the earlier build: every leg
list is first run through `americanToDecimal` regardless of format (the
source comments this with `oops reversed; handle below`), a `decimal`
format then re-parses the legs with the above-1 check, and every other
format string — known or not — is priced as American without any
unknown-format rejection. -/
def priceParlayLegacy (format : Option String) (legs : List ℚ) : Except PErr ParlayOut :=
  let f := jsToLower (match format with
    | none => "american"
    | some s => if s = "" then "american" else s)
  if legs.isEmpty then .error .noLegs
  else
    match legs.mapM americanToDecimal with
    | .error e => .error e
    | .ok ds =>
      if f = "decimal" then
        match legs.mapM parseDecimalLeg with
        | .error e => .error e
        | .ok ds2 => mkParlay ds2
      else mkParlay ds

/-! Section: Specification-side definitions

These follow the specification's wording and are compared against the
embedded code in the theorems below. -/

/-- The per-leg conversion value of the specification:
`1 + n/100` for positive `n`, `1 + 100/|n|` for negative `n`. -/
def a2dVal (n : ℚ) : ℚ := if 0 < n then 1 + n / 100 else 1 + 100 / |n|

/-- The combined-American rule of the specification: `round((d-1)*100)`
when `d ≥ 2`, `round(-100/(d-1))` otherwise. -/
def americanOfDecimalSpec (d : ℚ) : ℤ :=
  if 2 ≤ d then round ((d - 1) * 100) else round (-100 / (d - 1))

/-- First truthy candidate, with a fallback value: the selection rule the
chained `||` of the normalizer actually implements. -/
def specFirstTruthy : List JVal → JVal → JVal
  | [], fb => fb
  | c :: cs, fb => if truthy c then c else specFirstTruthy cs fb

/-! Section: helper lemmas and claim theorems -/

/-- Helper: every valid leg's decimal conversion exceeds 1. -/
theorem one_lt_a2dVal (n : ℚ) (hn : n ≠ 0) : 1 < a2dVal n := by
  unfold a2dVal
  split_ifs with h
  · have : 0 < n / 100 := by positivity
    linarith
  · have habs : 0 < |n| := abs_pos.mpr hn
    have : 0 < 100 / |n| := by positivity
    linarith

/-- Helper: folding a product over factors above 1 stays above 1. -/
theorem one_lt_foldl_mul : ∀ (xs : List ℚ) (a : ℚ), 1 < a → (∀ x ∈ xs, 1 < x) →
    1 < xs.foldl (· * ·) a
  | [], _, ha, _ => ha
  | x :: t, a, ha, h => by
    have hx : 1 < x := h x (by simp)
    have hax : 1 < a * x := one_lt_mul_of_lt_of_le ha hx.le
    rw [List.foldl_cons]
    exact one_lt_foldl_mul t (a * x) hax (fun y hy => h y (by simp [hy]))

/-- Helper: the combined decimal of a nonempty valid parlay exceeds 1. -/
theorem one_lt_parlay_product (xs : List ℚ) (hne : xs ≠ []) (h : ∀ x ∈ xs, 1 < x) :
    1 < xs.foldl (· * ·) 1 := by
  match xs, hne with
  | x :: t, _ =>
    have hx : 1 < x := h x (by simp)
    rw [List.foldl_cons, one_mul]
    rcases t with _ | ⟨y, t⟩
    · exact hx
    · exact one_lt_foldl_mul _ x hx (fun y hy => h y (by simp [hy]))

/-- Helper: `americanToDecimal` on a nonzero leg. -/
theorem a2d_ok (n : ℚ) (hn : n ≠ 0) : americanToDecimal n = .ok (a2dVal n) := by
  rw [americanToDecimal, if_neg hn, a2dVal]

/-- Helper: leg-wise conversion of an all-nonzero list. -/
theorem mapM_a2d_ok : ∀ (xs : List ℚ), (∀ x ∈ xs, x ≠ 0) →
    xs.mapM americanToDecimal = .ok (xs.map a2dVal)
  | [], _ => rfl
  | x :: t, h => by
    have hx : x ≠ 0 := h x (by simp)
    have ih := mapM_a2d_ok t (fun y hy => h y (by simp [hy]))
    simp only [List.mapM_cons, a2d_ok x hx, ih, List.map_cons]
    rfl

/-- Helper: the first 0 leg aborts the conversion. -/
theorem mapM_a2d_zero : ∀ (pre post : List ℚ), (∀ x ∈ pre, x ≠ 0) →
    (pre ++ 0 :: post).mapM americanToDecimal = .error (.badAmericanLeg 0)
  | [], post, _ => by
    simp only [List.nil_append, List.mapM_cons]
    have h0 : americanToDecimal 0 = .error (.badAmericanLeg 0) := by
      simp [americanToDecimal]
    rw [h0]
    rfl
  | x :: t, post, h => by
    have hx : x ≠ 0 := h x (by simp)
    have ih := mapM_a2d_zero t post (fun y hy => h y (by simp [hy]))
    simp only [List.cons_append, List.mapM_cons, a2d_ok x hx, ih]
    rfl

/-- Helper: `decimalToAmerican` above 1 follows the two-branch rule. -/
theorem d2a_ok (d : ℚ) (h : 1 < d) : decimalToAmerican d = .ok (americanOfDecimalSpec d) := by
  rw [decimalToAmerican, if_neg (not_le.mpr h), americanOfDecimalSpec]

/-- Helper: the shared pricing tail on a product above 1. -/
theorem mkParlay_eq (ds : List ℚ) (h : 1 < ds.foldl (· * ·) 1) :
    mkParlay ds = .ok ⟨toFixedQ 6 (ds.foldl (· * ·) 1),
      americanOfDecimalSpec (ds.foldl (· * ·) 1),
      toFixedQ 4 (clamp (1 / ds.foldl (· * ·) 1) 0 1 * 100)⟩ := by
  simp only [mkParlay, d2a_ok _ h]
  rfl

/-- Helper: unfolding of the later build in `american` mode. -/
theorem priceParlay_american_eq (legs : List ℚ) :
    priceParlay (some "american") legs =
      if legs.isEmpty then .error .noLegs
      else match legs.mapM americanToDecimal with
        | .error e => .error e
        | .ok ds => mkParlay ds := by rfl

example : a2dVal (-110) = 21 / 11 := by
  norm_num [a2dVal, abs_of_neg]

example : toFixedQ 6 (441 / 121 : ℚ) = 911157 / 250000 := by
  norm_num [toFixedQ, round_eq]

example : americanOfDecimalSpec (441 / 121 : ℚ) = 264 := by
  norm_num [americanOfDecimalSpec, round_eq]

example : toFixedQ 4 (clamp (1 / (441 / 121 : ℚ)) 0 1 * 100) = 34297 / 1250 := by
  norm_num [toFixedQ, clamp, round_eq]

example : ([-110, -110].map a2dVal).foldl (· * ·) 1 = 441 / 121 := by
  norm_num [a2dVal, abs_of_neg]

/-- Helper: in `american` mode, on a nonempty list of nonzero legs, the
handler core returns exactly the specification formulas: product of the
per-leg conversions, the two-branch American derivation, and the clamped
implied probability, each at its documented precision. -/
theorem parlayAmericanSpec_eval (legs : List ℚ) (hne : legs ≠ []) (h : ∀ l ∈ legs, l ≠ 0) :
    priceParlay (some "american") legs =
      .ok ⟨toFixedQ 6 ((legs.map a2dVal).foldl (· * ·) 1),
        americanOfDecimalSpec ((legs.map a2dVal).foldl (· * ·) 1),
        toFixedQ 4 (clamp (1 / (legs.map a2dVal).foldl (· * ·) 1) 0 1 * 100)⟩ := by
  have hprod : 1 < (legs.map a2dVal).foldl (· * ·) 1 := by
    apply one_lt_parlay_product
    · simpa using hne
    · intro x hx
      rcases List.mem_map.mp hx with ⟨l, hl, rfl⟩
      exact one_lt_a2dVal l (h l hl)
  rw [priceParlay_american_eq, if_neg (by simpa [List.isEmpty_iff] using hne),
    mapM_a2d_ok legs h]
  exact mkParlay_eq _ hprod

/-- Helper: a leg of exactly 0 anywhere in the list aborts `american`
pricing with the bad-american-leg error. -/
theorem parlay_zero_leg_eval (pre post : List ℚ) (h : ∀ l ∈ pre, l ≠ 0) :
    priceParlay (some "american") (pre ++ 0 :: post) = .error (.badAmericanLeg 0) := by
  rw [priceParlay_american_eq, if_neg (by simp [List.isEmpty_iff]), mapM_a2d_zero pre post h]

/-- Helper: concrete evaluation of the two-leg `-110` parlay: decimal
3.644628, American +264, implied probability 27.4376%. -/
theorem parlay_neg110_pair_eval :
    priceParlay (some "american") [-110, -110] =
      .ok ⟨911157 / 250000, 264, 34297 / 1250⟩ := by
  rw [parlayAmericanSpec_eval [-110, -110] (List.cons_ne_nil _ _) (by norm_num)]
  have h1 : ([-110, -110].map a2dVal).foldl (· * ·) 1 = 441 / 121 := by
    norm_num [a2dVal, abs_of_neg]
  rw [h1]
  norm_num [toFixedQ, americanOfDecimalSpec, clamp, round_eq]

/-- C2: for every list of valid legs, `priceParlay` in `american` mode
returns the product of the per-leg decimal conversions rounded to 6
fraction digits, the combined American price by the two-branch rounding
rule, and the clamped implied probability as a percentage to 4 fraction
digits; a leg of exactly 0 fails with the invalid-leg error. The claim's
concrete example values are corrected: `price("american",
["-110","-110"])` yields decimal 3.644628, American +264 and implied
probability 27.4376%. -/
theorem priceParlay_american_formulas :
    (∀ legs : List ℚ, legs ≠ [] → (∀ l ∈ legs, l ≠ 0) →
      priceParlay (some "american") legs =
        .ok ⟨toFixedQ 6 ((legs.map a2dVal).foldl (· * ·) 1),
          americanOfDecimalSpec ((legs.map a2dVal).foldl (· * ·) 1),
          toFixedQ 4 (clamp (1 / (legs.map a2dVal).foldl (· * ·) 1) 0 1 * 100)⟩) ∧
    (∀ pre post : List ℚ, (∀ l ∈ pre, l ≠ 0) →
      priceParlay (some "american") (pre ++ 0 :: post) = .error (.badAmericanLeg 0)) ∧
    priceParlay (some "american") [-110, -110] =
      .ok ⟨911157 / 250000, 264, 34297 / 1250⟩ :=
  ⟨parlayAmericanSpec_eval, parlay_zero_leg_eval, parlay_neg110_pair_eval⟩

/-- C2 witness: the formula theorem instantiated at the concrete two-leg
and zero-leg inputs. -/
theorem priceParlay_american_formulas_witness :
    priceParlay (some "american") [-110, -110] =
      .ok ⟨toFixedQ 6 (([-110, -110].map a2dVal).foldl (· * ·) 1),
        americanOfDecimalSpec (([-110, -110].map a2dVal).foldl (· * ·) 1),
        toFixedQ 4 (clamp (1 / ([-110, -110].map a2dVal).foldl (· * ·) 1) 0 1 * 100)⟩ ∧
    priceParlay (some "american") ([] ++ 0 :: []) = .error (.badAmericanLeg 0) :=
  ⟨priceParlay_american_formulas.1 [-110, -110] (List.cons_ne_nil _ _) (by norm_num),
   priceParlay_american_formulas.2.1 [] [] (by simp)⟩

/-- C2 counterexample: at `price("american", ["-110","-110"])` the code
produces decimal 3.644628, American 264 and implied probability 27.4376%,
refuting the claimed ≈3.6465 / +265 / ≈27.42%: the American price is not
265, the decimal is not within 0.001 of 3.6465, and the probability is
not within 0.01 of 27.42. -/
theorem priceParlay_example_counterexample :
    priceParlay (some "american") [-110, -110] =
      .ok ⟨911157 / 250000, 264, 34297 / 1250⟩ ∧
    (264 : ℤ) ≠ 265 ∧
    ¬ |(911157 / 250000 : ℚ) - 36465 / 10000| < 1 / 1000 ∧
    ¬ |(34297 / 1250 : ℚ) - 2742 / 100| < 1 / 100 := by
  refine ⟨parlay_neg110_pair_eval, by decide, ?_, ?_⟩
  · rw [abs_of_neg (by norm_num)]
    norm_num
  · rw [abs_of_pos (by norm_num)]
    norm_num

/-- Helper: the earlier build prices an unknown format as American. -/
theorem priceParlayLegacy_bogus_eq (legs : List ℚ) :
    priceParlayLegacy (some "bogus") legs =
      if legs.isEmpty then .error .noLegs
      else match legs.mapM americanToDecimal with
        | .error e => .error e
        | .ok ds => mkParlay ds := by rfl

/-- Helper: unfolding of the later build in `decimal` mode. -/
theorem priceParlay_decimal_eq (legs : List ℚ) :
    priceParlay (some "decimal") legs =
      if legs.isEmpty then .error .noLegs
      else match legs.mapM parseDecimalLeg with
        | .error e => .error e
        | .ok ds => mkParlay ds := by rfl

/-- Helper: unfolding of the earlier build in `decimal` mode: the
American parse runs first, then the decimal re-parse. -/
theorem priceParlayLegacy_decimal_eq (legs : List ℚ) :
    priceParlayLegacy (some "decimal") legs =
      if legs.isEmpty then .error .noLegs
      else match legs.mapM americanToDecimal with
        | .error e => .error e
        | .ok _ =>
          match legs.mapM parseDecimalLeg with
          | .error e => .error e
          | .ok ds2 => mkParlay ds2 := by rfl

/-- C7: the later build rejects an unknown format and rejects decimal
legs not above 1 with the decimal-flavored error, as claimed; the earlier
build — whose source comments the slip with `oops reversed` — instead
prices format `bogus` as American odds and rejects a decimal-mode 0 leg
with the American-flavored error, contradicting the claim. -/
theorem parlay_format_gate_builds :
    priceParlay (some "bogus") [-110] = .error (.unknownFormat "bogus") ∧
    priceParlayLegacy (some "bogus") [-110] =
      .ok ⟨1909091 / 1000000, -110, 52381 / 1000⟩ ∧
    priceParlay (some "decimal") [(1 / 2 : ℚ)] = .error (.badDecimalLeg (1 / 2)) ∧
    priceParlayLegacy (some "decimal") [(0 : ℚ)] = .error (.badAmericanLeg 0) := by
  refine ⟨rfl, ?_, ?_, ?_⟩
  · rw [priceParlayLegacy_bogus_eq, if_neg (by simp), mapM_a2d_ok [-110] (by norm_num)]
    have h1 : (([-110] : List ℚ).map a2dVal).foldl (· * ·) 1 = 21 / 11 := by
      norm_num [a2dVal, abs_of_neg]
    show mkParlay (([-110] : List ℚ).map a2dVal) = _
    rw [mkParlay_eq _ (by rw [h1]; norm_num), h1]
    norm_num [toFixedQ, americanOfDecimalSpec, clamp, round_eq]
  · rw [priceParlay_decimal_eq, if_neg (by simp)]
    have hleg : parseDecimalLeg (1 / 2) = .error (.badDecimalLeg (1 / 2)) := by
      rw [parseDecimalLeg, if_pos (by norm_num)]
    simp only [List.mapM_cons, hleg]
    rfl
  · rw [priceParlayLegacy_decimal_eq, if_neg (by simp)]
    have h0 : americanToDecimal 0 = .error (.badAmericanLeg 0) := by
      simp [americanToDecimal]
    simp only [List.mapM_cons, h0]
    rfl

/-- C9: converting an American value to decimal and back is the identity
for every integer in the American odds range (at least +100, or at most
-101); in particular for the representative +150 and -200. -/
theorem american_decimal_roundtrip (n : ℤ) (h : 100 ≤ n ∨ n ≤ -101) :
    (americanToDecimal (n : ℚ)).bind decimalToAmerican = .ok n := by
  rcases h with h | h
  · have hpos : (0 : ℚ) < (n : ℚ) := by
      have : (0 : ℤ) < n := by omega
      exact_mod_cast this
    have hn0 : (n : ℚ) ≠ 0 := ne_of_gt hpos
    have h100 : (100 : ℚ) ≤ (n : ℚ) := by exact_mod_cast h
    rw [americanToDecimal, if_neg hn0, if_pos hpos]
    show decimalToAmerican (1 + (n : ℚ) / 100) = .ok n
    have hgt1 : ¬ (1 + (n : ℚ) / 100 ≤ 1) := by
      have : 0 < (n : ℚ) / 100 := by positivity
      linarith
    have hge2 : 2 ≤ 1 + (n : ℚ) / 100 := by
      have : (1 : ℚ) ≤ (n : ℚ) / 100 := by
        rw [le_div_iff₀ (by norm_num : (0 : ℚ) < 100)]
        linarith
      linarith
    rw [decimalToAmerican, if_neg hgt1, if_pos hge2]
    have harg : (1 + (n : ℚ) / 100 - 1) * 100 = (n : ℚ) := by
      field_simp
    rw [harg, round_intCast]
  · have hneg : (n : ℚ) < 0 := by
      have : n < 0 := by omega
      exact_mod_cast this
    have hn0 : (n : ℚ) ≠ 0 := ne_of_lt hneg
    have habs : |(n : ℚ)| = -(n : ℚ) := abs_of_neg hneg
    have hm : (101 : ℚ) ≤ -(n : ℚ) := by
      have : (101 : ℤ) ≤ -n := by omega
      exact_mod_cast this
    have hmpos : (0 : ℚ) < -(n : ℚ) := by linarith
    rw [americanToDecimal, if_neg hn0, if_neg (not_lt.mpr hneg.le)]
    show decimalToAmerican (1 + 100 / |(n : ℚ)|) = .ok n
    rw [habs]
    have hfrac_pos : (0 : ℚ) < 100 / -(n : ℚ) := by positivity
    have hfrac_lt1 : 100 / -(n : ℚ) < 1 := by
      rw [div_lt_one hmpos]
      linarith
    have hgt1 : ¬ (1 + 100 / -(n : ℚ) ≤ 1) := by linarith
    have hlt2 : ¬ (2 ≤ 1 + 100 / -(n : ℚ)) := by linarith
    rw [decimalToAmerican, if_neg hgt1, if_neg hlt2]
    have harg : -100 / (1 + 100 / -(n : ℚ) - 1) = (n : ℚ) := by
      have hne : -(n : ℚ) ≠ 0 := ne_of_gt hmpos
      field_simp
    rw [harg, round_intCast]

/-- C9 witness: the round trip at +150 and -200. -/
theorem american_decimal_roundtrip_witness :
    (americanToDecimal (150 : ℚ)).bind decimalToAmerican = .ok 150 ∧
    (americanToDecimal (-200 : ℚ)).bind decimalToAmerican = .ok (-200) := by
  constructor
  · have := american_decimal_roundtrip 150 (by norm_num)
    simpa using this
  · have := american_decimal_roundtrip (-200) (by norm_num)
    simpa using this

/-- C10: an absent or empty format silently defaults to `american`, a
supplied format is lowercased, and a call with only legs is priced as
American odds. -/
theorem priceParlay_default_format :
    (∀ legs : List ℚ, priceParlay none legs = priceParlay (some "american") legs) ∧
    (∀ legs : List ℚ, priceParlay (some "") legs = priceParlay (some "american") legs) ∧
    (∀ legs : List ℚ, priceParlay (some "AMERICAN") legs = priceParlay (some "american") legs) ∧
    priceParlay none [-110, -110] = .ok ⟨911157 / 250000, 264, 34297 / 1250⟩ :=
  ⟨fun _ => rfl, fun _ => rfl, fun _ => rfl, parlay_neg110_pair_eval⟩

/-- Helper: unfolding of association-list lookup. -/
theorem lookup_cons {β : Type} (a k : String) (b : β) (es : List (String × β)) :
    ((k, b) :: es).lookup a = if a = k then some b else es.lookup a := by
  by_cases h : a = k
  · simp [List.lookup, h]
  · rw [if_neg h]
    have hb : (a == k) = false := beq_eq_false_iff_ne.mpr h
    simp [List.lookup, hb]

/-- Helper: lookup misses every key outside the table. -/
theorem lookup_eq_none_of_not_mem : ∀ (l : List (String × String)) (k : String),
    k ∉ l.map Prod.fst → l.lookup k = none
  | [], _, _ => rfl
  | (a, b) :: t, k, h => by
    simp only [List.map_cons, List.mem_cons, not_or] at h
    rw [lookup_cons, if_neg h.1]
    exact lookup_eq_none_of_not_mem t k h.2

/-- C5: `resolveSportKey` trims and lowercases its input; an empty result
resolves to null, a result containing `_` passes through unchanged, each
of the ten fixed aliases maps to its canonical key, and every other
string resolves to null. The function is total, hence never throws. -/
theorem resolveSport_spec (s : String) :
    (jsToLower (jsTrim s) = "" → resolveSportKey s = none) ∧
    (jsToLower (jsTrim s) ≠ "" → jsContainsChar (jsToLower (jsTrim s)) '_' = true →
      resolveSportKey s = some (jsToLower (jsTrim s))) ∧
    (jsToLower (jsTrim s) ≠ "" → jsContainsChar (jsToLower (jsTrim s)) '_' = false →
      jsToLower (jsTrim s) ∉ SPORT_ALIASES.map Prod.fst → resolveSportKey s = none) ∧
    (∀ p ∈ SPORT_ALIASES, resolveSportKey p.1 = some p.2) := by
  refine ⟨?_, ?_, ?_, by decide⟩
  · intro h
    simp only [resolveSportKey]
    rw [if_pos h]
  · intro h1 h2
    simp only [resolveSportKey]
    rw [if_neg h1, if_pos h2]
  · intro h1 h2 h3
    simp only [resolveSportKey]
    rw [if_neg h1, if_neg (by simp [h2]), lookup_eq_none_of_not_mem _ _ h3]

/-- C5 witness: the three conditional branches at concrete inputs. -/
theorem resolveSport_spec_witness :
    resolveSportKey "   " = none ∧
    resolveSportKey " Baseball_MLB " = some "baseball_mlb" ∧
    resolveSportKey "xyz" = none :=
  ⟨(resolveSport_spec "   ").1 (by decide),
   (resolveSport_spec " Baseball_MLB ").2.1 (by decide) (by decide),
   (resolveSport_spec "xyz").2.2.1 (by decide) (by decide) (by decide)⟩

/-- Helper: membership in the preset table determines its lookup. -/
theorem lookup_of_mem_PRESETS (q m : String) (h : (q, m) ∈ PRESETS) :
    PRESETS.lookup q = some m := by
  simp only [PRESETS, List.mem_cons, List.not_mem_nil, or_false] at h
  rcases h with h | h | h | h | h | h <;>
    (rw [Prod.mk.injEq] at h; rcases h with ⟨rfl, rfl⟩; rfl)

/-- C6: for every nonempty preset name, resolution fails as unknown
exactly when the lowercased name is outside the fixed table, fails with
the domain guard exactly when the name is `f5` and the sport key does not
start with `baseball_`, and otherwise returns the preset's fixed
non-empty market-token list, enumerated here for all six presets. -/
theorem resolvePreset_spec (p sk : String) (hne : jsToLower (jsTrim p) ≠ "") :
    (jsToLower (jsTrim p) ∉ PRESETS.map Prod.fst →
      resolvePreset p sk = .error (.unknownPreset (jsToLower (jsTrim p)))) ∧
    (jsToLower (jsTrim p) = "f5" → jsStartsWith sk "baseball_" = false →
      resolvePreset p sk = .error .domainMismatch) ∧
    (∀ m, (jsToLower (jsTrim p), m) ∈ PRESETS →
      (jsToLower (jsTrim p) = "f5" → jsStartsWith sk "baseball_" = true) →
      resolvePreset p sk = .ok m) ∧
    resolvePreset "moneyline" sk = .ok "h2h" ∧
    resolvePreset "spreads" sk = .ok "spreads" ∧
    resolvePreset "totals" sk = .ok "totals" ∧
    resolvePreset "first_half" sk = .ok "h2h_h1,spreads_h1,totals_h1" ∧
    resolvePreset "f5" "baseball_mlb" =
      .ok "h2h_1st_5_innings,spreads_1st_5_innings,totals_1st_5_innings" ∧
    resolvePreset "props_basic" sk =
      .ok "pitcher_strikeouts,batter_home_run,batter_hits_over_under,batter_total_bases_over_under" ∧
    jsSplitComma "h2h" = ["h2h"] ∧
    jsSplitComma "h2h_h1,spreads_h1,totals_h1" = ["h2h_h1", "spreads_h1", "totals_h1"] ∧
    jsSplitComma "h2h_1st_5_innings,spreads_1st_5_innings,totals_1st_5_innings" =
      ["h2h_1st_5_innings", "spreads_1st_5_innings", "totals_1st_5_innings"] ∧
    jsSplitComma "pitcher_strikeouts,batter_home_run,batter_hits_over_under,batter_total_bases_over_under" =
      ["pitcher_strikeouts", "batter_home_run", "batter_hits_over_under", "batter_total_bases_over_under"] := by
  refine ⟨?_, ?_, ?_, rfl, rfl, rfl, rfl, rfl, rfl, rfl, rfl, rfl, rfl⟩
  · intro h
    simp only [resolvePreset]
    rw [if_neg hne, lookup_eq_none_of_not_mem _ _ h]
  · intro h5 hs
    simp only [resolvePreset]
    rw [if_neg hne]
    simp only [h5, hs]
    rfl
  · intro m hm hguard
    have hlk : PRESETS.lookup (jsToLower (jsTrim p)) = some m :=
      lookup_of_mem_PRESETS _ _ hm
    simp only [resolvePreset]
    rw [if_neg hne, hlk]
    by_cases h5 : jsToLower (jsTrim p) = "f5"
    · simp [h5, hguard h5]
    · simp [h5]

/-- C6 witness: unknown preset, domain mismatch, and the `f5` tokens at
concrete inputs. -/
theorem resolvePreset_spec_witness :
    resolvePreset "bogus" "baseball_mlb" = .error (.unknownPreset "bogus") ∧
    resolvePreset " F5 " "basketball_nba" = .error .domainMismatch ∧
    resolvePreset "F5" "baseball_mlb" =
      .ok "h2h_1st_5_innings,spreads_1st_5_innings,totals_1st_5_innings" :=
  ⟨(resolvePreset_spec "bogus" "baseball_mlb" (by decide)).1 (by decide),
   (resolvePreset_spec " F5 " "basketball_nba" (by decide)).2.1 (by decide) (by decide),
   (resolvePreset_spec "F5" "baseball_mlb" (by decide)).2.2.1 _ (by decide) (fun _ => by decide)⟩

/-- Helper: a truthy cached value is returned with no request issued and
the cache untouched. -/
theorem fetchOddsH_hit (base apiKey endpoint : String) (params : List (String × String))
    (c : Cache) (up : Upstream) (v : JVal)
    (hv : cacheGet c (cacheKeyOf endpoint params) = some v) (ht : truthy v = true) :
    fetchOddsH base apiKey endpoint params c up = ⟨none, .ok v, c⟩ := by
  simp only [fetchOddsH, cacheKeyOf] at hv ⊢
  rw [hv]
  dsimp only
  rw [if_pos ht]

/-- Helper: with no truthy cached value and an upstream status of 400 or
more, the call fails with the status and body text and the cache is
unchanged. -/
theorem fetchOddsH_missErr (base apiKey endpoint : String) (params : List (String × String))
    (c : Cache) (up : Upstream)
    (h : ∀ v, cacheGet c (cacheKeyOf endpoint params) = some v → truthy v = false)
    (hst : 400 ≤ up.statusCode) :
    fetchOddsH base apiKey endpoint params c up =
      ⟨some (requestUrlHdr base endpoint params), .error (up.statusCode, up.bodyText), c⟩ := by
  simp only [fetchOddsH, cacheKeyOf] at h ⊢
  cases hcg : cacheGet c (endpoint ++ "?" ++ qsOf params) with
  | some v =>
    dsimp only
    rw [h v hcg]
    simp only [Bool.false_eq_true, if_false, if_pos hst]
  | none =>
    dsimp only
    rw [if_pos hst]

/-- Helper: with no truthy cached value and a success status, the parsed
payload is stored under the computed key and returned. -/
theorem fetchOddsH_missStore (base apiKey endpoint : String) (params : List (String × String))
    (c : Cache) (up : Upstream)
    (h : ∀ v, cacheGet c (cacheKeyOf endpoint params) = some v → truthy v = false)
    (hst : up.statusCode < 400) :
    fetchOddsH base apiKey endpoint params c up =
      ⟨some (requestUrlHdr base endpoint params), .ok up.bodyJson,
        cacheSet c (cacheKeyOf endpoint params) up.bodyJson⟩ := by
  simp only [fetchOddsH, cacheKeyOf] at h ⊢
  cases hcg : cacheGet c (endpoint ++ "?" ++ qsOf params) with
  | some v =>
    dsimp only
    rw [h v hcg]
    simp only [Bool.false_eq_true, if_false, if_neg (by omega : ¬ 400 ≤ up.statusCode)]
  | none =>
    dsimp only
    rw [if_neg (by omega : ¬ 400 ≤ up.statusCode)]

/-- Helper: the query-credential build differs from the header build only
in the request URL. -/
theorem fetchOddsQ_eq (base apiKey endpoint : String) (params : List (String × String))
    (c : Cache) (up : Upstream) :
    fetchOddsQ base apiKey endpoint params c up =
      { fetchOddsH base apiKey endpoint params c up with
        req := (fetchOddsH base apiKey endpoint params c up).req.map
          (fun _ => requestUrlQry base apiKey endpoint params) } := by
  simp only [fetchOddsQ, fetchOddsH]
  cases cacheGet c (endpoint ++ "?" ++ qsOf params) <;> dsimp only <;> split_ifs <;> rfl

/-- C1: `fetchOdds` returns a cached value with zero upstream requests
and an unchanged cache — but only when the cached value is truthy; on a
miss (including a cached falsy value) the upstream is called once, a
status of 400 or more fails with the upstream status and body leaving the
cache unchanged, and a success stores the parsed payload under the
computed key and returns it. -/
theorem fetchOdds_cache_contract (base apiKey endpoint : String)
    (params : List (String × String)) (c : Cache) (up : Upstream) :
    (∀ v, cacheGet c (cacheKeyOf endpoint params) = some v → truthy v = true →
      fetchOddsH base apiKey endpoint params c up = ⟨none, .ok v, c⟩) ∧
    ((∀ v, cacheGet c (cacheKeyOf endpoint params) = some v → truthy v = false) →
      (400 ≤ up.statusCode →
        fetchOddsH base apiKey endpoint params c up =
          ⟨some (requestUrlHdr base endpoint params),
            .error (up.statusCode, up.bodyText), c⟩) ∧
      (up.statusCode < 400 →
        fetchOddsH base apiKey endpoint params c up =
          ⟨some (requestUrlHdr base endpoint params), .ok up.bodyJson,
            cacheSet c (cacheKeyOf endpoint params) up.bodyJson⟩)) :=
  ⟨fun v hv ht => fetchOddsH_hit base apiKey endpoint params c up v hv ht,
   fun h => ⟨fun hst => fetchOddsH_missErr base apiKey endpoint params c up h hst,
     fun hst => fetchOddsH_missStore base apiKey endpoint params c up h hst⟩⟩

/-- C1 witness: the cache-hit branch at a concrete truthy entry. -/
theorem fetchOdds_cache_contract_witness :
    fetchOddsH "B" "K" "/e" [("a", "1")] [("/e?a=1", .str "x")] ⟨200, "", .null⟩ =
      ⟨none, .ok (.str "x"), [("/e?a=1", .str "x")]⟩ :=
  (fetchOdds_cache_contract "B" "K" "/e" [("a", "1")]
    [("/e?a=1", .str "x")] ⟨200, "", .null⟩).1 (.str "x") rfl rfl

/-- C1 counterexample: the cache holds JSON `null` under the computed
key, yet `fetchOdds` issues an upstream request (`req` is not `none`) and
overwrites the entry, refuting the claim that any held value is returned
with no upstream call. -/
theorem fetchOdds_falsy_cached_counterexample :
    cacheGet [("/e?a=1", JVal.null)] (cacheKeyOf "/e" [("a", "1")]) = some JVal.null ∧
    fetchOddsH "B" "K" "/e" [("a", "1")] [("/e?a=1", JVal.null)] ⟨200, "[]", .arr []⟩ =
      ⟨some "B/e?a=1", .ok (.arr []), [("/e?a=1", .arr [])]⟩ ∧
    (some "B/e?a=1" : Option String) ≠ none :=
  ⟨rfl, rfl, by simp⟩

/-- C3 counterexample: the same two key/value pairs inserted in the two
orders (a permutation of each other) produce different cache keys,
refuting order-independence. -/
theorem cacheKey_order_counterexample :
    cacheKeyOf "/e" [("a", "1"), ("b", "2")] ≠ cacheKeyOf "/e" [("b", "2"), ("a", "1")] ∧
    List.Perm [("a", "1"), ("b", "2")] [("b", "2"), ("a", "1")] := by
  constructor
  · decide
  · decide

/-- C3: the cache key, the result and the stored cache are identical
under any two credentials (the credential is never a component of the
key, which is computed from the endpoint and parameters alone, before the
credential is spread into the URL); but the key reflects the parameter
list in insertion order, so equal pairs in a different order can produce
a different key. -/
theorem cacheKey_credential_free (base k1 k2 endpoint : String)
    (params : List (String × String)) (c : Cache) (up : Upstream) :
    ((fetchOddsQ base k1 endpoint params c up).result =
      (fetchOddsQ base k2 endpoint params c up).result ∧
     (fetchOddsQ base k1 endpoint params c up).cache =
      (fetchOddsQ base k2 endpoint params c up).cache ∧
     ((fetchOddsQ base k1 endpoint params c up).req = none ↔
      (fetchOddsQ base k2 endpoint params c up).req = none)) ∧
    ((fetchOddsQ base k1 endpoint params c up).result =
      (fetchOddsH base k1 endpoint params c up).result ∧
     (fetchOddsQ base k1 endpoint params c up).cache =
      (fetchOddsH base k1 endpoint params c up).cache) ∧
    ((∀ v, cacheGet c (cacheKeyOf endpoint params) = some v → truthy v = false) →
      up.statusCode < 400 →
      (fetchOddsQ base k1 endpoint params c up).cache =
        cacheSet c (cacheKeyOf endpoint params) up.bodyJson) := by
  have hk : fetchOddsH base k1 endpoint params c up = fetchOddsH base k2 endpoint params c up := rfl
  refine ⟨?_, ?_, ?_⟩
  · rw [fetchOddsQ_eq base k1, fetchOddsQ_eq base k2, ← hk]
    refine ⟨rfl, rfl, ?_⟩
    cases (fetchOddsH base k1 endpoint params c up).req <;> simp
  · rw [fetchOddsQ_eq base k1]
    exact ⟨rfl, rfl⟩
  · intro hfalsy hst
    rw [fetchOddsQ_eq base k1]
    show (fetchOddsH base k1 endpoint params c up).cache = _
    rw [fetchOddsH_missStore base k1 endpoint params c up hfalsy hst]

/-- C3 witness: a miss with a success status stores under the
credential-free key. -/
theorem cacheKey_credential_free_witness :
    (fetchOddsQ "B" "KEY1" "/e" [("a", "1")] [] ⟨200, "", JVal.null⟩).cache =
      cacheSet [] (cacheKeyOf "/e" [("a", "1")]) JVal.null :=
  (cacheKey_credential_free "B" "KEY1" "KEY2" "/e" [("a", "1")] [] ⟨200, "", JVal.null⟩).2.2
    (fun v h => absurd h (by simp [cacheGet])) (by decide)

/-- Helper: property reads agree with the total read away from
`undefined`/`null`. -/
theorem getField_eq_fieldD (v : JVal) (f : String) (h : notNullish v = true) :
    getField v f = .ok (fieldD v f) := by
  cases v <;> simp [getField, fieldD, notNullish] at h ⊢

/-- Helper: a throw-free callback maps elementwise. -/
theorem mapE_ok {f : JVal → Except String JVal} {g : JVal → JVal} {p : JVal → Bool}
    (hfg : ∀ x, p x = true → f x = .ok (g x)) :
    ∀ xs : List JVal, xs.all p = true → mapE f xs = .ok (xs.map g)
  | [], _ => rfl
  | x :: t, h => by
    rw [List.all_cons, Bool.and_eq_true] at h
    rw [mapE, hfg x h.1, mapE_ok hfg t h.2, List.map_cons]

/-- Helper: `(v || []).map(f)` succeeds on any well-formed collection
value and maps its elements (an absent or falsy collection maps to the
empty array). -/
theorem jsMapArr_jsOr_ok {f : JVal → Except String JVal} {g : JVal → JVal} {p : JVal → Bool}
    (hfg : ∀ x, p x = true → f x = .ok (g x)) :
    ∀ v : JVal, wfColl v p = true →
      jsMapArr f (jsOr v (.arr [])) = .ok (.arr ((elemsOf v).map g))
  | .arr xs, h => by
    have hall : xs.all p = true := by simpa [wfColl] using h
    simp [jsOr, truthy, jsMapArr, elemsOf, mapE_ok hfg xs hall]
  | .undefined, _ => rfl
  | .null, _ => rfl
  | .bool b, h => by
    have hb : b = false := by simpa [wfColl, truthy] using h
    subst hb
    rfl
  | .num q, h => by
    have hq : q = 0 := by simpa [wfColl, truthy] using h
    subst hq
    simp [jsOr, truthy, jsMapArr, mapE, elemsOf]
  | .str s, h => by
    have hs : s = "" := by simpa [wfColl, truthy] using h
    subst hs
    rfl
  | .obj fs, h => by
    simp [wfColl, truthy] at h

/-- Helper: outcome normalization is total on non-nullish outcomes. -/
theorem normalizeOutcome_ok (o : JVal) (h : WFOutcome o = true) :
    normalizeOutcome o = .ok (normOutcomeP o) := by
  have hn : notNullish o = true := h
  simp only [normalizeOutcome, normOutcomeP,
    getField_eq_fieldD o "name" hn, getField_eq_fieldD o "price" hn,
    getField_eq_fieldD o "point" hn]
  rfl

/-- Helper: market normalization is total on well-formed markets. -/
theorem normalizeMarket_ok (m : JVal) (h : WFMarket m = true) :
    normalizeMarket m = .ok (normMarketP m) := by
  rw [WFMarket, Bool.and_eq_true] at h
  simp only [normalizeMarket, normMarketP,
    getField_eq_fieldD m "key" h.1, getField_eq_fieldD m "outcomes" h.1]
  show (jsMapArr normalizeOutcome (jsOr (fieldD m "outcomes") (.arr []))).bind _ = _
  rw [jsMapArr_jsOr_ok normalizeOutcome_ok (fieldD m "outcomes") h.2]
  rfl

/-- Helper: bookmaker normalization is total on well-formed bookmakers. -/
theorem normalizeBookmaker_ok (b : JVal) (h : WFBookmaker b = true) :
    normalizeBookmaker b = .ok (normBookP b) := by
  rw [WFBookmaker, Bool.and_eq_true] at h
  simp only [normalizeBookmaker, normBookP,
    getField_eq_fieldD b "key" h.1, getField_eq_fieldD b "title" h.1,
    getField_eq_fieldD b "markets" h.1]
  show (jsMapArr normalizeMarket (jsOr (fieldD b "markets") (.arr []))).bind _ = _
  rw [jsMapArr_jsOr_ok normalizeMarket_ok (fieldD b "markets") h.2]
  rfl

/-- Helper: event normalization is total on well-formed events and agrees
with the specification-side total normalizer. -/
theorem normalizeEvent_ok (e : JVal) (h : WFEvent e = true) :
    normalizeEvent e = .ok (normEventP e) := by
  rw [WFEvent, Bool.and_eq_true] at h
  simp only [normalizeEvent, normEventP,
    getField_eq_fieldD e "id" h.1, getField_eq_fieldD e "game_id" h.1,
    getField_eq_fieldD e "event_id" h.1, getField_eq_fieldD e "sport_key" h.1,
    getField_eq_fieldD e "sportKey" h.1, getField_eq_fieldD e "commence_time" h.1,
    getField_eq_fieldD e "home_team" h.1, getField_eq_fieldD e "away_team" h.1,
    getField_eq_fieldD e "bookmakers" h.1]
  show (jsMapArr normalizeBookmaker (jsOr (fieldD e "bookmakers") (.arr []))).bind _ = _
  rw [jsMapArr_jsOr_ok normalizeBookmaker_ok (fieldD e "bookmakers") h.2]
  rfl

/-- Helper: `normalizeEvents` maps well-formed event lists in order. -/
theorem normalizeEvents_ok (es : List JVal) (h : ∀ e ∈ es, WFEvent e = true) :
    normalizeEvents (.arr es) = .ok (.arr (es.map normEventP)) := by
  have hall : es.all WFEvent = true := List.all_eq_true.mpr h
  simp [normalizeEvents, jsMapArr, mapE_ok normalizeEvent_ok es hall]

/-- Helper: the first failing event determines the error, wherever it
sits in the list. -/
theorem mapE_append_error (bad : JVal) (rest : List JVal) (msg : String)
    (hbad : normalizeEvent bad = .error msg) :
    ∀ es : List JVal, (∀ e ∈ es, WFEvent e = true) →
      mapE normalizeEvent (es ++ bad :: rest) = .error msg
  | [], _ => by
    rw [List.nil_append, mapE, hbad]
  | e :: t, h => by
    have he : WFEvent e = true := h e (by simp)
    have ih := mapE_append_error bad rest msg hbad t (fun y hy => h y (by simp [hy]))
    rw [List.cons_append, mapE, normalizeEvent_ok e he, ih]

/-- Helper: the chained `||` selects the first truthy candidate. -/
theorem jsOr_chain_eq_firstTruthy (a b c : JVal) :
    jsOr (jsOr a b) c = specFirstTruthy [a, b] c := by
  by_cases ha : truthy a
  · simp [jsOr, specFirstTruthy, ha]
  · have ha' : truthy a = false := by simpa using ha
    by_cases hb : truthy b
    · simp [jsOr, specFirstTruthy, ha', hb]
    · have hb' : truthy b = false := by simpa using hb
      simp [jsOr, specFirstTruthy, ha', hb']

/-- C4: on well-formed input `normalizeEvents` returns one event per
input event in order; each variant-named field takes the first truthy
candidate (not the first present non-null one — a present empty string is
skipped), with the last candidate as fallback; `bookmakers`, `markets`
and `outcomes` are always arrays, empty when the input collection is
absent; and an outcome's absent `point` becomes an explicit null. -/
theorem normalizeEvents_shape (es : List JVal) (h : ∀ e ∈ es, WFEvent e = true) :
    normalizeEvents (.arr es) = .ok (.arr (es.map normEventP)) ∧
    (es.map normEventP).length = es.length ∧
    (∀ e, fieldD (normEventP e) "id" =
      specFirstTruthy [fieldD e "id", fieldD e "game_id"] (fieldD e "event_id")) ∧
    (∀ e, fieldD (normEventP e) "sport_key" =
      specFirstTruthy [fieldD e "sport_key"] (fieldD e "sportKey")) ∧
    (∀ e, fieldD (normEventP e) "bookmakers" =
      .arr ((elemsOf (fieldD e "bookmakers")).map normBookP)) ∧
    (∀ e, fieldD e "bookmakers" = .undefined → fieldD (normEventP e) "bookmakers" = .arr []) ∧
    (∀ b, fieldD (normBookP b) "markets" =
      .arr ((elemsOf (fieldD b "markets")).map normMarketP)) ∧
    (∀ m, fieldD (normMarketP m) "outcomes" =
      .arr ((elemsOf (fieldD m "outcomes")).map normOutcomeP)) ∧
    (∀ o, fieldD (normOutcomeP o) "point" = jsNullish (fieldD o "point") .null) ∧
    (∀ o, fieldD o "point" = .undefined → fieldD (normOutcomeP o) "point" = .null) := by
  refine ⟨normalizeEvents_ok es h, by simp, ?_, ?_, fun e => rfl, ?_, fun b => rfl,
    fun m => rfl, fun o => rfl, ?_⟩
  · intro e
    show jsOr (jsOr (fieldD e "id") (fieldD e "game_id")) (fieldD e "event_id") = _
    exact jsOr_chain_eq_firstTruthy _ _ _
  · intro e
    show jsOr (fieldD e "sport_key") (fieldD e "sportKey") = _
    by_cases hs : truthy (fieldD e "sport_key")
    · simp [jsOr, specFirstTruthy, hs]
    · have hs' : truthy (fieldD e "sport_key") = false := by simpa using hs
      simp [jsOr, specFirstTruthy, hs']
  · intro e he
    show JVal.arr ((elemsOf (fieldD e "bookmakers")).map normBookP) = .arr []
    rw [he]
    rfl
  · intro o ho
    show jsNullish (fieldD o "point") .null = .null
    rw [ho]
    rfl

/-- C4 witness: the shape theorem at a concrete one-event list. -/
theorem normalizeEvents_shape_witness :
    normalizeEvents (.arr [JVal.obj [("id", .str "E1"), ("bookmakers", .arr [])]]) =
      .ok (.arr ([JVal.obj [("id", .str "E1"), ("bookmakers", .arr [])]].map normEventP)) :=
  (normalizeEvents_shape [.obj [("id", .str "E1"), ("bookmakers", .arr [])]] (by decide)).1

/-- C4 counterexample: for an event with `id: ""` (present and non-null)
and `game_id: "g1"`, the code outputs id `"g1"`, while the claimed
first-present-non-null rule selects `""` — and the two differ. -/
theorem normalizeEvents_firstTruthy_counterexample :
    normalizeEvents (.arr [.obj [("id", .str ""), ("game_id", .str "g1")]]) =
      .ok (.arr [.obj [("id", .str "g1"), ("sport_key", .undefined),
        ("commence_time", .undefined), ("home", .undefined), ("away", .undefined),
        ("bookmakers", .arr [])]]) ∧
    specFirstPresentNonNull [.str "", .str "g1", .undefined] = .str "" ∧
    JVal.str "g1" ≠ JVal.str "" := by
  refine ⟨rfl, rfl, ?_⟩
  intro hcontra
  injection hcontra with hs
  exact absurd hs (by decide)

/-- C8: `normalizeEvents` never throws on events that merely lack
optional fields; and on structurally invalid input the error is the
offending event's own TypeError, identical wherever the event sits in the
list — there is no `MalformedEvent` error and no index information. -/
theorem normalizeEvents_total_on_sparse :
    (∀ es : List JVal, (∀ e ∈ es, WFEvent e = true) →
      ∃ out, normalizeEvents (.arr es) = .ok out) ∧
    (∀ (es : List JVal) (bad : JVal) (rest : List JVal) (msg : String),
      (∀ e ∈ es, WFEvent e = true) → normalizeEvent bad = .error msg →
      normalizeEvents (.arr (es ++ bad :: rest)) = .error msg) := by
  constructor
  · intro es h
    exact ⟨_, normalizeEvents_ok es h⟩
  · intro es bad rest msg h hbad
    simp only [normalizeEvents, jsMapArr, mapE_append_error bad rest msg hbad es h]

/-- C8 witness: the empty object normalizes without error. -/
theorem normalizeEvents_total_on_sparse_witness :
    ∃ out, normalizeEvents (.arr [JVal.obj []]) = .ok out :=
  normalizeEvents_total_on_sparse.1 [.obj []] (by decide)

/-- C8 counterexample: a truthy non-array `bookmakers` produces the very
same error whether the offending event is at index 0 or index 1, so the
failure cannot identify the offending index, refuting the claimed
`MalformedEvent` with index. -/
theorem normalizeEvents_error_index_counterexample :
    normalizeEvents (.arr [.obj [], .obj [("bookmakers", .num 5)]]) =
      .error "TypeError: map on non-array" ∧
    normalizeEvents (.arr [.obj [("bookmakers", .num 5)]]) =
      .error "TypeError: map on non-array" :=
  ⟨rfl, rfl⟩
